import Mathlib

/-!
Verification of the point-registration core of `grizli/prep.py`:
`clip_lists`, `match_lists`, the iteration loop of `align_drizzled_image`,
and `tweak_flt`.

Arithmetic is modelled over a linear ordered field `α` (`ℚ` in concrete
evaluations, `ℝ` in the intended floating-point reading).  Euclidean
distances produced by `scipy.spatial.cKDTree.query` are compared with a
bound only through order, so they are represented by their squares:
for a nonnegative distance `d = sqrt d2` and a bound `c`,
`d < c ↔ 0 < c ∧ d2 < c ^ 2` and `d > c ↔ c < 0 ∨ c ^ 2 < d2`.
-/

namespace Grizli

variable {α : Type} [LinearOrderedField α]

abbrev Pt (α : Type) := α × α

/-- Squared Euclidean distance between two 2-D points. -/
def sqDist (p q : Pt α) : α := (p.1 - q.1) ^ 2 + (p.2 - q.2) ^ 2

/-- `scipy.spatial.cKDTree(l).query(p, k=1)` (prep.py lines 350-357,
1385-1397): squared distance to the nearest point of `l` together with its
index.  `none` models the query on an empty tree, which reports an infinite
distance and the out-of-range index `n` ("missing neighbors are indicated
with infinite distances"), i.e. no neighbor at all. -/
def queryNN (p : Pt α) : List (Pt α) → Option (α × ℕ)
  | [] => none
  | q :: l =>
    match queryNN p l with
    | none => some (sqDist p q, 0)
    | some (d, i) => if sqDist p q ≤ d then some (sqDist p q, 0) else some (d, i + 1)

/-- `dist < clip` for a nearest-neighbor distance, phrased on the squared
distance (`sqrt d2 < c ↔ 0 < c ∧ d2 < c ^ 2`, as `sqrt d2 ≥ 0`). -/
def distLtB (d2 c : α) : Bool := decide (0 < c) && decide (d2 < c ^ 2)

/-- The nearest neighbor of `p` in `l` lies strictly within `clip`
(`dist, ix = tree.query(...)`, then `dist < clip`); `false` on an empty
tree, whose query distance is infinite. -/
def nnWithin (p : Pt α) (l : List (Pt α)) (clip : α) : Bool :=
  match queryNN p l with
  | some (d2, _) => distLtB d2 clip
  | none => false

theorem sqDist_comm (p q : Pt α) : sqDist p q = sqDist q p := by
  simp only [sqDist]; ring

theorem sqDist_nonneg (p q : Pt α) : 0 ≤ sqDist p q := by
  have h1 : (0 : α) ≤ (p.1 - q.1) ^ 2 := sq_nonneg _
  have h2 : (0 : α) ≤ (p.2 - q.2) ^ 2 := sq_nonneg _
  simpa [sqDist] using add_nonneg h1 h2

theorem queryNN_eq_none_iff (p : Pt α) (l : List (Pt α)) :
    queryNN p l = none ↔ l = [] := by
  induction l with
  | nil => simp [queryNN]
  | cons q l ih =>
    simp only [queryNN]
    rcases h : queryNN p l with _ | ⟨d, i⟩
    · simp
    · split
      · simp
      · split <;> simp

theorem queryNN_le (p : Pt α) (l : List (Pt α)) (d : α) (i : ℕ)
    (h : queryNN p l = some (d, i)) : ∀ q ∈ l, d ≤ sqDist p q := by
  induction l generalizing d i with
  | nil => simp [queryNN] at h
  | cons r l ih =>
    intro q hq
    simp only [queryNN] at h
    rcases h' : queryNN p l with _ | ⟨d', i'⟩
    · rw [h'] at h
      simp only [Option.some.injEq, Prod.mk.injEq] at h
      rcases List.mem_cons.mp hq with hq | hq
      · simp [← h.1, hq]
      · exact absurd ((queryNN_eq_none_iff p l).mp h' ▸ hq) (List.not_mem_nil q)
    · rw [h'] at h
      by_cases hle : sqDist p r ≤ d'
      · simp only [if_pos hle, Option.some.injEq, Prod.mk.injEq] at h
        rcases List.mem_cons.mp hq with hq | hq
        · simp [← h.1, hq]
        · exact h.1 ▸ le_trans hle (ih d' i' h' q hq)
      · simp only [if_neg hle, Option.some.injEq, Prod.mk.injEq] at h
        rcases List.mem_cons.mp hq with hq | hq
        · exact hq.symm ▸ h.1 ▸ le_of_not_le hle
        · exact h.1 ▸ ih d' i' h' q hq

theorem queryNN_attained (p : Pt α) (l : List (Pt α)) (d : α) (i : ℕ)
    (h : queryNN p l = some (d, i)) : ∃ q ∈ l, sqDist p q = d := by
  induction l generalizing d i with
  | nil => simp [queryNN] at h
  | cons r l ih =>
    simp only [queryNN] at h
    rcases h' : queryNN p l with _ | ⟨d', i'⟩
    · rw [h'] at h
      simp only [Option.some.injEq, Prod.mk.injEq] at h
      exact ⟨r, List.mem_cons_self r l, h.1⟩
    · rw [h'] at h
      by_cases hle : sqDist p r ≤ d'
      · simp only [if_pos hle, Option.some.injEq, Prod.mk.injEq] at h
        exact ⟨r, List.mem_cons_self r l, h.1⟩
      · simp only [if_neg hle, Option.some.injEq, Prod.mk.injEq] at h
        obtain ⟨q, hq, hqd⟩ := ih d' i' h'
        exact ⟨q, List.mem_cons_of_mem r hq, h.1 ▸ hqd⟩

/-- The clipping test holds iff the radius is positive and some point of `l`
is strictly within it. -/
theorem nnWithin_iff (p : Pt α) (l : List (Pt α)) (c : α) :
    nnWithin p l c = true ↔ 0 < c ∧ ∃ q ∈ l, sqDist p q < c ^ 2 := by
  simp only [nnWithin]
  rcases h : queryNN p l with _ | ⟨d, i⟩
  · have hl : l = [] := (queryNN_eq_none_iff p l).mp h
    subst hl; simp
  · simp only [distLtB, Bool.and_eq_true, decide_eq_true_eq]
    constructor
    · rintro ⟨hc, hd⟩
      obtain ⟨q, hq, hqd⟩ := queryNN_attained p l d i h
      exact ⟨hc, q, hq, hqd ▸ hd⟩
    · rintro ⟨hc, q, hq, hqd⟩
      exact ⟨hc, lt_of_le_of_lt (queryNN_le p l d i h q hq) hqd⟩

/-! ### `clip_lists` (prep.py lines 342-377) -/

/-- Forward pass of `clip_lists`: keep the points of `output` whose nearest
neighbor in `input` is within `clip` (`ok = dist < clip; out_arr = output[ok]`). -/
def fwdPass (input output : List (Pt α)) (clip : α) : List (Pt α) :=
  output.filter (fun p => nnWithin p input clip)

/-- Backward pass of `clip_lists`: keep the points of `input` whose nearest
neighbor among the forward survivors is within `clip`
(`in_arr = input[ok]` against the rebuilt tree over `out_arr`). -/
def bwdPass (input output : List (Pt α)) (clip : α) : List (Pt α) :=
  input.filter (fun p => nnWithin p (fwdPass input output clip) clip)

/-- `clip_lists(input, output, clip)`: forward pass, `return False` when it
has no survivors (`ok.sum() == 0`), otherwise backward pass and
`return in_arr, out_arr`.  `none` models the `False` return. -/
def clipLists (input output : List (Pt α)) (clip : α) :
    Option (List (Pt α) × List (Pt α)) :=
  let out_arr := fwdPass input output clip
  if out_arr = [] then none
  else some (bwdPass input output clip, out_arr)

theorem mem_fwdPass {input output : List (Pt α)} {clip : α} {p : Pt α}
    (h : p ∈ fwdPass input output clip) :
    p ∈ output ∧ nnWithin p input clip = true :=
  List.mem_filter.mp h

/-- If the forward pass kept anything, the backward pass keeps the witness
input point, so it is nonempty as well. -/
theorem bwdPass_ne_nil {input output : List (Pt α)} {clip : α}
    (h : fwdPass input output clip ≠ []) : bwdPass input output clip ≠ [] := by
  obtain ⟨p, hp⟩ := List.exists_mem_of_ne_nil _ h
  obtain ⟨hpo, hpw⟩ := mem_fwdPass hp
  obtain ⟨hc, x, hx, hxd⟩ := (nnWithin_iff p input clip).mp hpw
  have hxw : nnWithin x (fwdPass input output clip) clip = true :=
    (nnWithin_iff x _ clip).mpr ⟨hc, p, hp, (sqDist_comm x p).symm ▸ sqDist_comm p x ▸ hxd⟩
  have : x ∈ bwdPass input output clip := List.mem_filter.mpr ⟨hx, hxw⟩
  exact List.ne_nil_of_mem this

/-- Every forward survivor still has its witness within the backward
survivors: the nearest `input` point of a kept `output` point is itself kept
by the backward pass. -/
theorem fwd_nnWithin_bwd {input output : List (Pt α)} {clip : α} {p : Pt α}
    (h : p ∈ fwdPass input output clip) :
    nnWithin p (bwdPass input output clip) clip = true := by
  obtain ⟨hpo, hpw⟩ := mem_fwdPass h
  obtain ⟨hc, x, hx, hxd⟩ := (nnWithin_iff p input clip).mp hpw
  have hxw : nnWithin x (fwdPass input output clip) clip = true :=
    (nnWithin_iff x _ clip).mpr ⟨hc, p, h, sqDist_comm x p ▸ hxd⟩
  have hxb : x ∈ bwdPass input output clip := List.mem_filter.mpr ⟨hx, hxw⟩
  exact (nnWithin_iff p _ clip).mpr ⟨hc, x, hxb, hxd⟩

/-- C4: clipping is idempotent.  If `clip_lists(A, B, r)` returned the pair
`(in_arr, out_arr)`, then `clip_lists(in_arr, out_arr, r)` returns exactly
the same pair: every forward survivor keeps a within-radius neighbor among
the backward survivors, and the backward filter is idempotent. -/
theorem clipLists_idempotent (A B : List (Pt α)) (r : α)
    (ia oa : List (Pt α)) (h : clipLists A B r = some (ia, oa)) :
    clipLists ia oa r = some (ia, oa) := by
  simp only [clipLists] at h
  by_cases hfwd : fwdPass A B r = []
  · simp [hfwd] at h
  · simp only [if_neg hfwd, Option.some.injEq, Prod.mk.injEq] at h
    obtain ⟨hia, hoa⟩ := h
    have hfwd2 : fwdPass ia oa r = oa := by
      subst hia hoa
      apply List.filter_eq_self.mpr
      intro p hp
      exact fwd_nnWithin_bwd hp
    have hbwd2 : bwdPass ia oa r = ia := by
      rw [bwdPass, hfwd2]
      subst hia hoa
      rw [bwdPass, List.filter_filter]
      apply List.filter_congr
      intro p hp
      simp [Bool.and_self]
    have hoa_ne : oa ≠ [] := hoa ▸ hfwd
    simp [clipLists, hfwd2, hbwd2, hoa_ne]

/-- C4 witness: a concrete successful clip, re-clipped unchanged. -/
theorem clipLists_idempotent_witness :
    clipLists [((0 : ℚ), 0)] [((1 : ℚ), 1)] 20 = some ([((0 : ℚ), 0)], [((1 : ℚ), 1)]) :=
  clipLists_idempotent [((0 : ℚ), 0)] [((1 : ℚ), 1)] 20 [((0 : ℚ), 0)] [((1 : ℚ), 1)]
    (by with_unfolding_all decide)

/-- C5: `clip_lists` returns `False` (`none`) exactly when a pass has no
survivors — the explicit `ok.sum() == 0` check covers the forward pass, and
an empty backward pass can only happen together with an empty forward pass —
and a returned pair never has an empty component. -/
theorem clipLists_no_empty (A B : List (Pt α)) (r : α) :
    (clipLists A B r = none ↔ (fwdPass A B r = [] ∨ bwdPass A B r = [])) ∧
      ∀ ia oa, clipLists A B r = some (ia, oa) → ia ≠ [] ∧ oa ≠ [] := by
  constructor
  · constructor
    · intro h
      by_cases hfwd : fwdPass A B r = []
      · exact Or.inl hfwd
      · simp [clipLists, hfwd] at h
    · rintro (hfwd | hbwd)
      · simp [clipLists, hfwd]
      · by_cases hfwd : fwdPass A B r = []
        · simp [clipLists, hfwd]
        · exact absurd hbwd (bwdPass_ne_nil hfwd)
  · intro ia oa h
    simp only [clipLists] at h
    by_cases hfwd : fwdPass A B r = []
    · simp [hfwd] at h
    · simp only [if_neg hfwd, Option.some.injEq, Prod.mk.injEq] at h
      exact ⟨h.1 ▸ bwdPass_ne_nil hfwd, h.2 ▸ hfwd⟩

/-- C5 witness: a concrete successful clip with both components nonempty. -/
theorem clipLists_no_empty_witness :
    [((2 : ℚ), 3)] ≠ ([] : List (Pt ℚ)) ∧ [((2 : ℚ), 2)] ≠ ([] : List (Pt ℚ)) :=
  (clipLists_no_empty [((2 : ℚ), 3)] [((2 : ℚ), 2)] 5).2
    [((2 : ℚ), 3)] [((2 : ℚ), 2)] (by with_unfolding_all decide)

/-! ### C9: the empty spatial index -/

/-- Error kinds named by the spec for `clip`. -/
inductive ClipErr where
  | emptyIndex : ClipErr
  | noMatches : ClipErr
deriving DecidableEq

/-- Following the claim's words (`spec.md` sections 4.1-4.2): constructing a
SpatialIndex over zero points and querying it fails with a distinct
`EmptyIndex` error, while a pass with zero survivors fails with `NoMatches`. -/
def clipSpec (input output : List (Pt α)) (clip : α) :
    Except ClipErr (List (Pt α) × List (Pt α)) :=
  if input = [] then Except.error ClipErr.emptyIndex
  else
    let out_arr := fwdPass input output clip
    if out_arr = [] then Except.error ClipErr.noMatches
    else Except.ok (bwdPass input output clip, out_arr)

/-- C9 counterexample: the code has no `EmptyIndex` failure.  A query on the
empty tree reports no neighbor (`none`, i.e. infinite distance and
out-of-range index), so `clip_lists` on an empty input set returns the very
same `False` (`none`) as an ordinary no-survivor clip, where the claim's
spec-shaped version distinguishes `EmptyIndex` from `NoMatches`. -/
theorem emptyIndex_counterexample :
    queryNN ((0 : ℚ), (0 : ℚ)) [] = none ∧
      clipLists ([] : List (Pt ℚ)) [((0 : ℚ), 0)] 20 = none ∧
      clipLists [((100 : ℚ), 100)] [((0 : ℚ), 0)] 20 = none ∧
      clipSpec ([] : List (Pt ℚ)) [((0 : ℚ), 0)] 20 = Except.error ClipErr.emptyIndex ∧
      clipSpec [((100 : ℚ), 100)] [((0 : ℚ), 0)] 20 = Except.error ClipErr.noMatches := by
  refine ⟨rfl, by with_unfolding_all decide, by with_unfolding_all decide, by with_unfolding_all rfl, by with_unfolding_all rfl⟩

/-- C9 amended: a query on an index over zero points returns no neighbor at
all — in particular never a spurious zero-distance match — and `clip_lists`
over an empty input set flows into the ordinary `NoMatches` result
(`False`/`none`); no distinct `EmptyIndex` error exists in the code. -/
theorem emptyIndex_amended (p : Pt α) (out : List (Pt α)) (r : α) :
    queryNN p ([] : List (Pt α)) = none ∧ clipLists ([] : List (Pt α)) out r = none := by
  constructor
  · rfl
  · have hfwd : fwdPass ([] : List (Pt α)) out r = [] := by
      apply List.filter_eq_nil_iff.mpr
      intro p hp
      simp [nnWithin, queryNN]
    simp [clipLists, hfwd]

/-! ### Medians and the robust dispersion -/

/-- `numpy.median`: sort ascending, take the middle element for odd length,
the mean of the two middle elements for even length.  (The empty case, where
numpy warns and yields nan, is never reached by the properties below.) -/
def median (l : List α) : α :=
  let s := List.insertionSort (fun a b => a ≤ b) l
  if s.length % 2 = 1 then s.getD (s.length / 2) 0
  else if s.length = 0 then 0
  else (s.getD (s.length / 2 - 1) 0 + s.getD (s.length / 2) 0) / 2

/-- Modelled from the spec: `grizli.utils.nmad` (the module `grizli/utils.py`
is not included under src/): the normalized median absolute deviation
`1.4826 × median(|x − median(x)|)`. -/
def nmad (l : List α) : α :=
  (14826 / 10000 : α) * median (l.map (fun x => |x - median l|))

/-! ### Similarity transforms and `match_lists` results -/

/-- `skimage.transform.SimilarityTransform`, represented by its scale `s`,
rotation unit vector `u = (cos θ, sin θ)` (so `tf.rotation = θ`), and
translation `t`; the map is `p ↦ s · R(θ) · p + t`.  The unit-vector
representation keeps the rotation arithmetic inside the field `α`. -/
structure SimTf (α : Type) where
  s : α
  u : Pt α
  t : Pt α
deriving DecidableEq

/-- Apply a similarity transform to a point: `p' = s · R(θ) · p + t`. -/
def applyTf (tf : SimTf α) (p : Pt α) : Pt α :=
  (tf.s * (tf.u.1 * p.1 - tf.u.2 * p.2) + tf.t.1,
   tf.s * (tf.u.2 * p.1 + tf.u.1 * p.2) + tf.t.2)

/-- Product of two rotation unit vectors (complex multiplication): the
rotation angles add. -/
def cmul (a b : Pt α) : Pt α := (a.1 * b.1 - a.2 * b.2, a.1 * b.2 + a.2 * b.1)

/-- Conjugate rotation vector: the rotation angle is negated. -/
def conjU (a : Pt α) : Pt α := (a.1, -a.2)

/-- The tuple unpacked from a `match_lists` call:
`output_ix, input_ix, outliers, tf`. -/
structure MatchRes (α : Type) where
  oix : List ℕ
  iix : List ℕ
  outl : List Bool
  tf : SimTf α
deriving DecidableEq

/-- Integer fancy indexing `l[ix]`. -/
def sel (l : List (Pt α)) (ix : List ℕ) : List (Pt α) :=
  ix.map (fun i => l.getD i (0, 0))

/-- Boolean masking `l[flags]`: keep entries whose flag is `true`. -/
def maskKeep {β : Type} (l : List β) (flags : List Bool) : List β :=
  (l.zip flags).filterMap (fun xb => if xb.2 then some xb.1 else none)

/-- Boolean masking `l[~flags]`: keep entries whose flag is `false`. -/
def maskNot {β : Type} (l : List β) (flags : List Bool) : List β :=
  (l.zip flags).filterMap (fun xb => if xb.2 then none else some xb.1)

/-! ### The outlier check of `align_drizzled_image` (prep.py lines 524-536) -/

/-- Outlier check and single refit of the registration iteration.  `drs` is
the list of residual norms
`np.sqrt(((input[input_ix] - tf(output[output_ix]))**2).sum(axis=1))` of the
current fit against all matched pairs, `outM`/`inM` are `output[output_ix]`
and `input[input_ix]`, and `ml'` is `match_lists` at the current tolerance
(`none` modelling a raised exception, which here would be uncaught).  The
robust dispersion is `rms = utils.nmad(drs)`, the mask is `drs > 4*rms`,
and when any point is flagged a single further `match_lists` call runs on
the inlier subsets only; the flags are not recomputed afterwards. -/
def outlierRefit (ml' : List (Pt α) → List (Pt α) → Option (MatchRes α))
    (outM inM : List (Pt α)) (drs : List α) (tf : SimTf α) :
    Option (SimTf α × List Bool) :=
  let rms := nmad drs
  let flags := drs.map (fun dr => decide (4 * rms < dr))
  if flags.any id then
    match ml' (maskNot outM flags) (maskNot inM flags) with
    | some r2 => some (r2.tf, flags)
    | none => none
  else some (tf, flags)

/-- C2: in the outlier check, the dispersion equals 1.4826 times the median
absolute deviation of the residual norms, every one of the matched pairs is
checked (`drs.length` flags) and flagged exactly when its residual norm
exceeds `4σ`, a refit happens iff some point is flagged and is then a
single `match_lists` call on the inlier subset only, keeping the original
flags (no recursion), and when `σ = 0` exactly the nonzero residual norms
are flagged. -/
theorem outlierCheck_spec (ml' : List (Pt α) → List (Pt α) → Option (MatchRes α))
    (outM inM : List (Pt α)) (drs : List α) (tf tf2 : SimTf α) (fl : List Bool)
    (h : outlierRefit ml' outM inM drs tf = some (tf2, fl))
    (hpos : ∀ x ∈ drs, 0 ≤ x) :
    nmad drs = (14826 / 10000 : α) * median (drs.map (fun x => |x - median drs|)) ∧
    fl = drs.map (fun dr => decide (4 * nmad drs < dr)) ∧
    fl.length = drs.length ∧
    (fl.any id = true →
      ∃ r2, ml' (maskNot outM fl) (maskNot inM fl) = some r2 ∧ tf2 = r2.tf) ∧
    (fl.any id = false → tf2 = tf) ∧
    (nmad drs = 0 → ∀ i, i < drs.length → (fl.getD i false = true ↔ drs.getD i 0 ≠ 0)) := by
  have hfl : fl = drs.map (fun dr => decide (4 * nmad drs < dr)) ∧
      ((fl.any id = true →
        ∃ r2, ml' (maskNot outM fl) (maskNot inM fl) = some r2 ∧ tf2 = r2.tf) ∧
       (fl.any id = false → tf2 = tf)) := by
    simp only [outlierRefit] at h
    by_cases hany : (drs.map (fun dr => decide (4 * nmad drs < dr))).any id = true
    · rw [if_pos hany] at h
      rcases h2 : ml' (maskNot outM (drs.map (fun dr => decide (4 * nmad drs < dr))))
          (maskNot inM (drs.map (fun dr => decide (4 * nmad drs < dr)))) with _ | r2
      · rw [h2] at h; simp at h
      · rw [h2] at h
        simp only [Option.some.injEq, Prod.mk.injEq] at h
        refine ⟨h.2.symm, ?_, ?_⟩
        · intro _
          exact ⟨r2, by rw [← h.2]; exact h2, h.1.symm⟩
        · intro hno
          rw [← h.2] at hno
          exact absurd hany (by simp [hno])
    · rw [if_neg hany] at h
      simp only [Option.some.injEq, Prod.mk.injEq] at h
      refine ⟨h.2.symm, ?_, fun _ => h.1.symm⟩
      intro htrue
      rw [← h.2] at htrue
      exact absurd htrue hany
  refine ⟨rfl, hfl.1, by simp [hfl.1], hfl.2.1, hfl.2.2, ?_⟩
  intro hσ i hi
  have hget : fl.getD i false = decide (4 * nmad drs < drs.getD i 0) := by
    rw [hfl.1]
    rw [List.getD_eq_getElem?_getD, List.getD_eq_getElem?_getD,
      List.getElem?_map]
    have : drs[i]? = some (drs.getD i 0) := by
      rw [List.getD_eq_getElem?_getD]
      rcases h' : drs[i]? with _ | x
      · exact absurd (List.getElem?_eq_none_iff.mp h') (by omega)
      · simp
    rw [this]
    rfl
  rw [hget, hσ]
  have hmem : drs.getD i 0 ∈ drs := by
    have h' : drs[i] ∈ drs := List.getElem_mem hi
    rw [List.getD_eq_getElem?_getD, List.getElem?_eq_getElem hi]
    exact h'
  have h0 : 0 ≤ drs.getD i 0 := hpos _ hmem
  constructor
  · intro ht
    have := of_decide_eq_true ht
    simp only [mul_zero] at this
    exact ne_of_gt this
  · intro hne
    have : 0 < drs.getD i 0 := lt_of_le_of_ne h0 (Ne.symm hne)
    simp only [mul_zero]
    exact decide_eq_true this

/-- C2 witness: residual norms `[0, 1, 100]` — `σ = 1.4826`, only the gross
outlier is flagged, and the refit runs on the two inliers. -/
theorem outlierCheck_spec_witness :
    nmad [(0 : ℚ), 1, 100] =
      (14826 / 10000 : ℚ) * median ([(0 : ℚ), 1, 100].map (fun x => |x - median [(0 : ℚ), 1, 100]|)) :=
  (outlierCheck_spec (fun _ _ => some ⟨[], [], [], ⟨1, (1, 0), (0, 0)⟩⟩)
    [((0 : ℚ), 0), (1, 1), (2, 2)] [((0 : ℚ), 0), (1, 1), (2, 2)]
    [(0 : ℚ), 1, 100] ⟨1, (1, 0), (0, 0)⟩ ⟨1, (1, 0), (0, 0)⟩
    [false, false, true] (by with_unfolding_all decide)
    (by with_unfolding_all decide)).1

/-! ### Tolerance escalation in `align_drizzled_image` (prep.py lines 495-521) -/

/-- First retry loop (prep.py lines 495-505): `toler = 5; titer = 0;
while titer < 3:` try `match_lists` at the current tolerance, unpack and
`break` on success, `toler += 5; titer += 1` on an exception.  `ml t`
models the `match_lists` call at tolerance `t`, with `none` for a raised
exception; `res` is the Python variable `res`, which keeps its previous
value — the previous iteration's result, or nothing on the first
iteration — when every attempt fails.  `fuel = 3 - titer`.  Returns the
final `res` and `toler`. -/
def tryMatchLoop (ml : α → Option (MatchRes α)) :
    ℕ → α → Option (MatchRes α) → Option (MatchRes α) × α
  | 0, toler, res => (res, toler)
  | fuel + 1, toler, res =>
    match ml toler with
    | some r => (some r, toler)
    | none => tryMatchLoop ml fuel (toler + 5) res

/-- The low-yield guard `len(input_ix)*1./len(input) < 0.1`
(prep.py line 510); `ninput` is the size of the clipped input list, which
is nonempty whenever `clip_lists` succeeded. -/
def lowYieldB (r : MatchRes α) (ninput : ℕ) : Bool :=
  decide ((r.iix.length : α) / (ninput : α) < 1 / 10)

/-- Second retry loop (prep.py lines 509-520): `titer = 0;
while (len(input_ix)*1./len(input) < 0.1) & (titer < 3):` escalate
`toler` by 5 and retry; an exception is swallowed (`except: pass`),
leaving `res` at its previous value, which is then re-unpacked. -/
def lowYieldLoop (ml : α → Option (MatchRes α)) (ninput : ℕ) :
    ℕ → α → MatchRes α → MatchRes α × α
  | 0, toler, res => (res, toler)
  | fuel + 1, toler, res =>
    if lowYieldB res ninput then
      lowYieldLoop ml ninput fuel (toler + 5) ((ml (toler + 5)).getD res)
    else (res, toler)

/-- The complete match phase of one registration iteration (prep.py lines
495-521): the first retry loop, then — after `res` is unpacked, which on a
first iteration where every attempt failed raises an uncaught `NameError`
(`none`) because `res` was never assigned — the low-yield retry loop.
When the first loop fell through but a previous iteration had set `res`,
that stale result is what the rest of the iteration silently uses. -/
def matchPhase (ml : α → Option (MatchRes α)) (ninput : ℕ)
    (prev : Option (MatchRes α)) : Option (MatchRes α × α) :=
  match tryMatchLoop ml 3 5 prev with
  | (none, _) => none
  | (some r, toler) => some (lowYieldLoop ml ninput 3 toler r)

/-- Following the claim's words: escalate the tolerance by +5 for at most 3
attempts and, if the match still fails, propagate `MatchFailure` carrying
the last tolerance tried (the low-yield retries, irrelevant once every
attempt fails, are omitted). -/
def matchPhaseSpec (ml : α → Option (MatchRes α)) : Except α (MatchRes α × α) :=
  match ml 5 with
  | some r => Except.ok (r, 5)
  | none =>
    match ml 10 with
    | some r => Except.ok (r, 10)
    | none =>
      match ml 15 with
      | some r => Except.ok (r, 15)
      | none => Except.error 15

/-- C3 counterexample: when every escalated attempt fails, no `MatchFailure`
is produced.  With a stale result from a previous iteration the phase
silently returns that stale result (with `toler` already escalated to 20);
on the first iteration it aborts with an unbound-variable `NameError`
(`none`); the claim's spec-shaped phase instead returns the distinct
failure value carrying the last tolerance tried. -/
theorem matchFailure_counterexample :
    matchPhase (fun _ : ℚ => (none : Option (MatchRes ℚ))) 1
        (some ⟨[0], [0], [false], ⟨1, (1, 0), (0, 0)⟩⟩) =
      some (⟨[0], [0], [false], ⟨1, (1, 0), (0, 0)⟩⟩, 20) ∧
    matchPhase (fun _ : ℚ => (none : Option (MatchRes ℚ))) 1 none = none ∧
    matchPhaseSpec (fun _ : ℚ => (none : Option (MatchRes ℚ))) = Except.error 15 := by
  refine ⟨by with_unfolding_all decide, by with_unfolding_all rfl, by with_unfolding_all rfl⟩

/-- C3 amended: the escalation schedule is as claimed — tolerances 5, 10, 15
in the first loop (+5 per retry, at most 3 attempts), and +5 per retry for
at most 3 further attempts while the matched fraction stays below 10% — but
exhaustion produces no `MatchFailure`: the first loop falls through to the
stale previous result, which the phase then returns after the low-yield
loop, or the phase aborts (`none`) when no previous result exists. -/
theorem toleranceEscalation (ml : α → Option (MatchRes α)) (ninput : ℕ)
    (prev : Option (MatchRes α)) :
    (tryMatchLoop ml 3 5 prev =
      match ml 5 with
      | some r => (some r, 5)
      | none =>
        match ml 10 with
        | some r => (some r, 10)
        | none =>
          match ml 15 with
          | some r => (some r, 15)
          | none => (prev, 20)) ∧
    (∀ (t : α) (r : MatchRes α), lowYieldB r ninput = false →
      lowYieldLoop ml ninput 3 t r = (r, t)) ∧
    (∀ (fuel : ℕ) (t : α) (r : MatchRes α), lowYieldB r ninput = true →
      lowYieldLoop ml ninput (fuel + 1) t r =
        lowYieldLoop ml ninput fuel (t + 5) ((ml (t + 5)).getD r)) ∧
    (ml 5 = none → ml 10 = none → ml 15 = none →
      matchPhase ml ninput none = none) ∧
    (ml 5 = none → ml 10 = none → ml 15 = none → ∀ r₀,
      matchPhase ml ninput (some r₀) = some (lowYieldLoop ml ninput 3 20 r₀)) := by
  have hchain : ∀ pv : Option (MatchRes α), tryMatchLoop ml 3 5 pv =
      match ml 5 with
      | some r => (some r, 5)
      | none =>
        match ml 10 with
        | some r => (some r, 10)
        | none =>
          match ml 15 with
          | some r => (some r, 15)
          | none => (pv, 20) := by
    intro pv
    rcases h5 : ml 5 with _ | r5 <;> rcases h10 : ml 10 with _ | r10 <;>
      rcases h15 : ml 15 with _ | r15 <;>
      simp only [tryMatchLoop, h5, h10, h15] <;> norm_num <;>
      simp only [tryMatchLoop, show (5 : α) + 5 = 10 by norm_num, h10, h15,
        show (10 : α) + 5 = 15 by norm_num, show (15 : α) + 5 = 20 by norm_num]
  refine ⟨hchain prev, ?_, ?_, ?_, ?_⟩
  · intro t r hlow
    simp [lowYieldLoop, hlow]
  · intro fuel t r hlow
    simp [lowYieldLoop, hlow]
  · intro h5 h10 h15
    simp only [matchPhase, hchain none, h5, h10, h15]
  · intro h5 h10 h15 r₀
    simp only [matchPhase, hchain (some r₀), h5, h10, h15]

/-- C3 witness for the amended statement: a concrete always-failing matcher
aborts the phase with no result. -/
theorem toleranceEscalation_witness :
    matchPhase (fun _ : ℚ => (none : Option (MatchRes ℚ))) 1 none = none :=
  (toleranceEscalation (fun _ : ℚ => (none : Option (MatchRes ℚ))) 1 none).2.2.2.1
    rfl rfl rfl

/-! ### The registration loop of `align_drizzled_image` (prep.py lines 475-555) -/

/-- The loop state: the accumulators
`out_shift, out_rot, out_scale = np.zeros(2), 0., 1.` (the rotation as a
unit vector, `rotU = (cos out_rot, sin out_rot)`, starting at `(1, 0)`),
the WCS data `crpix`/`cd` that the loop updates in place, and the Python
variable `res` holding the last successful `match_lists` unpack. -/
structure LoopState (α : Type) where
  shift : Pt α
  rotU : Pt α
  scale : α
  crpix : Pt α
  cd : Pt α × Pt α
  res : Option (MatchRes α)
deriving DecidableEq

/-- WCS update (prep.py lines 550-555): `crpix += tf.translation` is done in
`iterBody`; here `cd := cd · _mat / tf.scale` with
`_mat = [[cos θ, −sin θ], [sin θ, cos θ]]` for `θ = −tf.rotation`, i.e.
`_mat = [[c, d], [−d, c]]` for the rotation unit vector `u = (c, d)`. -/
def cdUpdate (cd : Pt α × Pt α) (tf : SimTf α) : Pt α × Pt α :=
  (((cd.1.1 * tf.u.1 - cd.1.2 * tf.u.2) / tf.s, (cd.1.1 * tf.u.2 + cd.1.2 * tf.u.1) / tf.s),
   ((cd.2.1 * tf.u.1 - cd.2.2 * tf.u.2) / tf.s, (cd.2.1 * tf.u.2 + cd.2.2 * tf.u.1) / tf.s))

/-- One iteration of `for iter in range(NITER)` (prep.py lines 477-555).

* `proj st` models `drz_wcs.all_world2pix(rd_ref, 0)`, the external WCS
  projection of the fixed reference list through the current, updated WCS
  state; the code then runs `clip_lists(xy_drz, xy+1, clip=clip)`.
* `ml o i t` models `match_lists(o, i, toler=t)`, `none` for a raised
  exception.
* `sqrtA` is the square root applied to the squared residual norms
  (`Real.sqrt` in the intended reading; its values feed only order
  comparisons inside the outlier check).
* A `False` from `clip_lists` reaches `input, output = status` and raises
  (`none`); a first iteration whose every match attempt failed raises
  `NameError` (`none`); an exception in the refit `match_lists` call is
  uncaught (`none`).
* The pixel-mask count `N = ok2.sum()` of lines 478-486 is computed but
  never used afterwards, so it is not modelled.

Accumulation (lines 546-555): `out_shift += tf.translation`,
`out_rot -= tf.rotation` (multiply the rotation vector by the conjugate),
`out_scale *= tf.scale`, then the WCS update.  Returns the new state and
the iteration transform `tf` (the per-iteration log record of line 541). -/
def iterBody (proj : LoopState α → List (Pt α))
    (ml : List (Pt α) → List (Pt α) → α → Option (MatchRes α))
    (sqrtA : α → α) (xy_drz : List (Pt α)) (clip : α) (st : LoopState α) :
    Option (LoopState α × SimTf α) :=
  let xy := proj st
  match clipLists xy_drz (xy.map (fun p => (p.1 + 1, p.2 + 1))) clip with
  | none => none
  | some (input, output) =>
    match matchPhase (fun t => ml output input t) input.length st.res with
    | none => none
    | some (r, toler) =>
      let tfOut := (sel output r.oix).map (applyTf r.tf)
      let dxs := List.zipWith (fun a b => (a.1 - b.1, a.2 - b.2)) (sel input r.iix) tfOut
      let drs := dxs.map (fun v => sqrtA (v.1 * v.1 + v.2 * v.2))
      match outlierRefit (fun o i => ml o i toler) (sel output r.oix) (sel input r.iix)
          drs r.tf with
      | none => none
      | some (tf, _flags) =>
        some
          ({ shift := (st.shift.1 + tf.t.1, st.shift.2 + tf.t.2)
             rotU := cmul st.rotU (conjU tf.u)
             scale := st.scale * tf.s
             crpix := (st.crpix.1 + tf.t.1, st.crpix.2 + tf.t.2)
             cd := cdUpdate st.cd tf
             res := some r }, tf)

/-- `for iter in range(NITER)` (prep.py line 477): `N` iterations with no
convergence-based exit, threading the state and collecting the
per-iteration transforms in order; `none` models an uncaught exception
aborting the run. -/
def runLoop (proj : LoopState α → List (Pt α))
    (ml : List (Pt α) → List (Pt α) → α → Option (MatchRes α))
    (sqrtA : α → α) (xy_drz : List (Pt α)) (clip : α) :
    ℕ → LoopState α → Option (LoopState α × List (SimTf α))
  | 0, st => some (st, [])
  | n + 1, st =>
    match iterBody proj ml sqrtA xy_drz clip st with
    | none => none
    | some (st', tf) =>
      match runLoop proj ml sqrtA xy_drz clip n st' with
      | none => none
      | some (stF, tfs) => some (stF, tf :: tfs)

/-- The accumulators before the loop (prep.py line 475), with the original
WCS and the `res` variable not yet assigned. -/
def initState (crpix : Pt α) (cd : Pt α × Pt α) : LoopState α :=
  { shift := (0, 0), rotU := (1, 0), scale := 1, crpix := crpix, cd := cd, res := none }

/-- Componentwise sum of the per-iteration translations
(`out_shift += tf.translation`). -/
def sumShift : List (SimTf α) → Pt α
  | [] => (0, 0)
  | tf :: tfs => (tf.t.1 + (sumShift tfs).1, tf.t.2 + (sumShift tfs).2)

/-- Product of the conjugated per-iteration rotation vectors: the rotation
vector of `out_rot = −Σ θ_i` (`out_rot -= tf.rotation`). -/
def prodConjU : List (SimTf α) → Pt α
  | [] => (1, 0)
  | tf :: tfs => cmul (conjU tf.u) (prodConjU tfs)

/-- Product of the per-iteration scales (`out_scale *= tf.scale`). -/
def prodScale : List (SimTf α) → α
  | [] => 1
  | tf :: tfs => tf.s * prodScale tfs

/-- Applying the single accumulated `(out_shift, out_rot, out_scale)` as a
similarity transform: `p ↦ out_scale · R(out_rot) · p + out_shift`. -/
def applyAcc (st : LoopState α) (p : Pt α) : Pt α :=
  (st.scale * (st.rotU.1 * p.1 - st.rotU.2 * p.2) + st.shift.1,
   st.scale * (st.rotU.2 * p.1 + st.rotU.1 * p.2) + st.shift.2)

/-- Applying the iteration transforms in order: `T1`, then `T2`, …, `TN`. -/
def applyChain (tfs : List (SimTf α)) (p : Pt α) : Pt α :=
  tfs.foldl (fun q tf => applyTf tf q) p

theorem cmul_assoc (a b c : Pt α) : cmul (cmul a b) c = cmul a (cmul b c) := by
  simp only [cmul, Prod.mk.injEq]
  constructor <;> ring

theorem cmul_one (a : Pt α) : cmul ((1 : α), (0 : α)) a = a := by
  simp [cmul]

/-- The loop accumulators after a completed run: starting from any state,
the shift grows by the sum of the translations, the rotation vector is
multiplied by the product of the conjugated rotations, and the scale by the
product of the scales. -/
theorem runLoop_acc (proj : LoopState α → List (Pt α))
    (ml : List (Pt α) → List (Pt α) → α → Option (MatchRes α))
    (sqrtA : α → α) (xy_drz : List (Pt α)) (clip : α) :
    ∀ (N : ℕ) (st stF : LoopState α) (tfs : List (SimTf α)),
      runLoop proj ml sqrtA xy_drz clip N st = some (stF, tfs) →
      stF.shift = (st.shift.1 + (sumShift tfs).1, st.shift.2 + (sumShift tfs).2) ∧
      stF.rotU = cmul st.rotU (prodConjU tfs) ∧
      stF.scale = st.scale * prodScale tfs := by
  intro N
  induction N with
  | zero =>
    intro st stF tfs h
    simp only [runLoop, Option.some.injEq, Prod.mk.injEq] at h
    obtain ⟨h1, h2⟩ := h
    subst h1 h2
    simp [sumShift, prodConjU, prodScale, cmul]
  | succ n ih =>
    intro st stF tfs h
    simp only [runLoop] at h
    rcases hb : iterBody proj ml sqrtA xy_drz clip st with _ | ⟨st', tf⟩
    · rw [hb] at h; simp at h
    · rw [hb] at h
      dsimp only at h
      rcases hr : runLoop proj ml sqrtA xy_drz clip n st' with _ | ⟨stF', tfs'⟩
      · rw [hr] at h; simp at h
      · rw [hr] at h
        simp only [Option.some.injEq, Prod.mk.injEq] at h
        obtain ⟨h1, h2⟩ := h
        obtain ⟨g1, g2, g3⟩ := ih st' stF' tfs' hr
        have hst' : st'.shift = (st.shift.1 + tf.t.1, st.shift.2 + tf.t.2) ∧
            st'.rotU = cmul st.rotU (conjU tf.u) ∧ st'.scale = st.scale * tf.s := by
          simp only [iterBody] at hb
          rcases hc : clipLists xy_drz ((proj st).map (fun p => (p.1 + 1, p.2 + 1))) clip
            with _ | ⟨inp, outp⟩
          · rw [hc] at hb; simp at hb
          · rw [hc] at hb
            dsimp only at hb
            rcases hm : matchPhase (fun t => ml outp inp t) inp.length st.res
              with _ | ⟨r, toler⟩
            · rw [hm] at hb; simp at hb
            · rw [hm] at hb
              dsimp only at hb
              rcases h3 : outlierRefit (fun o i => ml o i toler) (sel outp r.oix)
                  (sel inp r.iix)
                  ((List.zipWith (fun a b => (a.1 - b.1, a.2 - b.2)) (sel inp r.iix)
                    ((sel outp r.oix).map (applyTf r.tf))).map
                      (fun v => sqrtA (v.1 * v.1 + v.2 * v.2))) r.tf
                with _ | ⟨tf2, flags⟩
              · rw [h3] at hb; simp at hb
              · rw [h3] at hb
                dsimp only at hb
                simp only [Option.some.injEq, Prod.mk.injEq] at hb
                obtain ⟨hb1, hb2⟩ := hb
                subst hb2
                rw [← hb1]
                exact ⟨rfl, rfl, rfl⟩
        subst h1 h2
        refine ⟨?_, ?_, ?_⟩
        · rw [g1, hst'.1]
          simp only [sumShift, Prod.mk.injEq]
          constructor <;> ring
        · rw [g2, hst'.2.1, prodConjU, cmul_assoc]
        · rw [g3, hst'.2.2, prodScale, mul_assoc]

theorem prodConjU_pure (tfs : List (SimTf α))
    (h : ∀ tf ∈ tfs, tf.u = (1, 0) ∧ tf.s = 1) :
    prodConjU tfs = ((1 : α), (0 : α)) := by
  induction tfs with
  | nil => rfl
  | cons tf rest ih =>
    have hu := (h tf (List.mem_cons_self tf rest)).1
    rw [prodConjU, ih (fun g hg => h g (List.mem_cons_of_mem tf hg)), hu]
    simp [conjU, cmul]

theorem prodScale_pure (tfs : List (SimTf α))
    (h : ∀ tf ∈ tfs, tf.u = (1, 0) ∧ tf.s = 1) : prodScale tfs = 1 := by
  induction tfs with
  | nil => rfl
  | cons tf rest ih =>
    have hs := (h tf (List.mem_cons_self tf rest)).2
    rw [prodScale, ih (fun g hg => h g (List.mem_cons_of_mem tf hg)), hs, one_mul]

theorem applyChain_pure (tfs : List (SimTf α))
    (h : ∀ tf ∈ tfs, tf.u = (1, 0) ∧ tf.s = 1) :
    ∀ p : Pt α, applyChain tfs p = (p.1 + (sumShift tfs).1, p.2 + (sumShift tfs).2) := by
  induction tfs with
  | nil => intro p; simp [applyChain, sumShift]
  | cons tf rest ih =>
    intro p
    have hu := (h tf (List.mem_cons_self tf rest)).1
    have hs := (h tf (List.mem_cons_self tf rest)).2
    have hstep : applyTf tf p = (p.1 + tf.t.1, p.2 + tf.t.2) := by
      simp [applyTf, hu, hs]
    have : applyChain (tf :: rest) p = applyChain rest (applyTf tf p) := rfl
    rw [this, ih (fun g hg => h g (List.mem_cons_of_mem tf hg)), hstep]
    simp only [sumShift, Prod.mk.injEq]
    constructor <;> ring

/-- C1 amended: the returned `(out_shift, out_rot, out_scale)` accumulates
componentwise — `out_shift` is the sum of the per-iteration translations,
`out_rot` the negated sum of the per-iteration rotations (as a rotation
vector, the product of the conjugates), and `out_scale` the product of the
per-iteration scales — which is not transform composition in general;
applying `T1`, then `T2`, …, then `TN` to a point coincides with applying
the single accumulated transform when every per-iteration transform is a
pure translation (rotation `0`, scale `1`). -/
theorem registration_accumulation (proj : LoopState α → List (Pt α))
    (ml : List (Pt α) → List (Pt α) → α → Option (MatchRes α))
    (sqrtA : α → α) (xy_drz : List (Pt α)) (clip : α) (N : ℕ)
    (crpix : Pt α) (cd : Pt α × Pt α) (stF : LoopState α) (tfs : List (SimTf α))
    (h : runLoop proj ml sqrtA xy_drz clip N (initState crpix cd) = some (stF, tfs)) :
    stF.shift = sumShift tfs ∧ stF.rotU = prodConjU tfs ∧ stF.scale = prodScale tfs ∧
    ((∀ tf ∈ tfs, tf.u = (1, 0) ∧ tf.s = 1) →
      ∀ p, applyChain tfs p = applyAcc stF p) := by
  obtain ⟨g1, g2, g3⟩ := runLoop_acc proj ml sqrtA xy_drz clip N (initState crpix cd) stF tfs h
  have e1 : stF.shift = sumShift tfs := by
    rw [g1]; simp [initState]
  have e2 : stF.rotU = prodConjU tfs := by
    rw [g2]; simp only [initState]; exact cmul_one _
  have e3 : stF.scale = prodScale tfs := by
    rw [g3]; simp [initState]
  refine ⟨e1, e2, e3, ?_⟩
  intro hpure p
  rw [applyChain_pure tfs hpure p]
  simp only [applyAcc, e1, e2, e3, prodConjU_pure tfs hpure, prodScale_pure tfs hpure,
    Prod.mk.injEq]
  constructor <;> ring

/-- C1 witness: a completed one-iteration run with the identity transform. -/
theorem registration_accumulation_witness :
    (⟨(0, 0), (1, 0), 1, (0, 0), ((1, 0), (0, 1)),
        some ⟨[0], [0], [false], ⟨1, (1, 0), (0, 0)⟩⟩⟩ : LoopState ℚ).shift =
      sumShift [(⟨1, (1, 0), (0, 0)⟩ : SimTf ℚ)] ∧
    (⟨(0, 0), (1, 0), 1, (0, 0), ((1, 0), (0, 1)),
        some ⟨[0], [0], [false], ⟨1, (1, 0), (0, 0)⟩⟩⟩ : LoopState ℚ).rotU =
      prodConjU [(⟨1, (1, 0), (0, 0)⟩ : SimTf ℚ)] ∧
    (⟨(0, 0), (1, 0), 1, (0, 0), ((1, 0), (0, 1)),
        some ⟨[0], [0], [false], ⟨1, (1, 0), (0, 0)⟩⟩⟩ : LoopState ℚ).scale =
      prodScale [(⟨1, (1, 0), (0, 0)⟩ : SimTf ℚ)] ∧
    ((∀ tf ∈ [(⟨1, (1, 0), (0, 0)⟩ : SimTf ℚ)], tf.u = (1, 0) ∧ tf.s = 1) →
      ∀ p, applyChain [(⟨1, (1, 0), (0, 0)⟩ : SimTf ℚ)] p =
        applyAcc (⟨(0, 0), (1, 0), 1, (0, 0), ((1, 0), (0, 1)),
          some ⟨[0], [0], [false], ⟨1, (1, 0), (0, 0)⟩⟩⟩ : LoopState ℚ) p) :=
  registration_accumulation (fun _ => [((-1 : ℚ), -1)])
    (fun _ _ _ => some ⟨[0], [0], [false], ⟨1, (1, 0), (0, 0)⟩⟩)
    (fun x => x) [((0 : ℚ), 0)] 20 1 (0, 0) ((1, 0), (0, 1)) _ _
    (by with_unfolding_all decide)

/-- C1 counterexample: a completed run whose single iteration transform is a
pure rotation by 90° — applying the iteration transforms in order sends
`(1, 0)` to `(0, 1)`, while the accumulated `(out_shift, out_rot,
out_scale)` (whose rotation is the negated sum) sends it to `(0, −1)`:
the accumulated triple is not the composition of the per-iteration
transforms. -/
theorem registration_accumulation_counterexample :
    runLoop (fun _ => [((-1 : ℚ), -1)])
        (fun _ _ _ => some ⟨[0], [0], [false], ⟨1, (0, 1), (0, 0)⟩⟩)
        (fun x => x) [((0 : ℚ), 0)] 20 1 (initState (0, 0) ((1, 0), (0, 1))) =
      some (⟨(0, 0), (0, -1), 1, (0, 0), ((0, 1), (-1, 0)),
              some ⟨[0], [0], [false], ⟨1, (0, 1), (0, 0)⟩⟩⟩,
            [⟨1, (0, 1), (0, 0)⟩]) ∧
    applyChain [(⟨1, (0, 1), (0, 0)⟩ : SimTf ℚ)] (1, 0) = (0, 1) ∧
    applyAcc (⟨(0, 0), (0, -1), 1, (0, 0), ((0, 1), (-1, 0)),
        some ⟨[0], [0], [false], ⟨1, (0, 1), (0, 0)⟩⟩⟩ : LoopState ℚ) (1, 0) = (0, -1) ∧
    applyChain [(⟨1, (0, 1), (0, 0)⟩ : SimTf ℚ)] (1, 0) ≠
      applyAcc (⟨(0, 0), (0, -1), 1, (0, 0), ((0, 1), (-1, 0)),
        some ⟨[0], [0], [false], ⟨1, (0, 1), (0, 0)⟩⟩⟩ : LoopState ℚ) (1, 0) := by
  refine ⟨by with_unfolding_all decide, by with_unfolding_all decide,
    by with_unfolding_all decide, by with_unfolding_all decide⟩

/-- C6 amended: the loop has no convergence-based exit — every completed
run performs exactly `N` match-fit-accumulate iterations, one transform
record per iteration, and then returns — but a clip or match failure aborts
the run with an uncaught exception (`none`) partway instead. -/
theorem fixedIteration_count (proj : LoopState α → List (Pt α))
    (ml : List (Pt α) → List (Pt α) → α → Option (MatchRes α))
    (sqrtA : α → α) (xy_drz : List (Pt α)) (clip : α) :
    ∀ (N : ℕ) (st stF : LoopState α) (tfs : List (SimTf α)),
      runLoop proj ml sqrtA xy_drz clip N st = some (stF, tfs) → tfs.length = N := by
  intro N
  induction N with
  | zero =>
    intro st stF tfs h
    simp only [runLoop, Option.some.injEq, Prod.mk.injEq] at h
    rw [← h.2]
    rfl
  | succ n ih =>
    intro st stF tfs h
    simp only [runLoop] at h
    rcases hb : iterBody proj ml sqrtA xy_drz clip st with _ | ⟨st', tf⟩
    · rw [hb] at h; simp at h
    · rw [hb] at h
      dsimp only at h
      rcases hr : runLoop proj ml sqrtA xy_drz clip n st' with _ | ⟨stF', tfs'⟩
      · rw [hr] at h; simp at h
      · rw [hr] at h
        simp only [Option.some.injEq, Prod.mk.injEq] at h
        rw [← h.2, List.length_cons, ih st' stF' tfs' hr]

/-- C6 witness: a concrete two-iteration run completes with exactly two
iteration records. -/
theorem fixedIteration_count_witness :
    ([(⟨1, (1, 0), (0, 0)⟩ : SimTf ℚ), ⟨1, (1, 0), (0, 0)⟩]).length = 2 :=
  fixedIteration_count (fun _ => [((-1 : ℚ), -1)])
    (fun _ _ _ => some ⟨[0], [0], [false], ⟨1, (1, 0), (0, 0)⟩⟩)
    (fun x => x) [((0 : ℚ), 0)] 20 2 (initState (0, 0) ((1, 0), (0, 1)))
    (⟨(0, 0), (1, 0), 1, (0, 0), ((1, 0), (0, 1)),
        some ⟨[0], [0], [false], ⟨1, (1, 0), (0, 0)⟩⟩⟩ : LoopState ℚ)
    [⟨1, (1, 0), (0, 0)⟩, ⟨1, (1, 0), (0, 0)⟩] (by with_unfolding_all decide)

/-- C6 counterexample: an input on which the clip step finds no matches —
`input, output = status` unpacks `False` and raises, so the run aborts
(`none`) during its first iteration instead of executing exactly `N = 1`
match-fit-accumulate iterations and returning the result. -/
theorem fixedIteration_counterexample :
    runLoop (fun _ => [((99 : ℚ), 99)]) (fun _ _ _ => none) (fun x => x)
      [((0 : ℚ), 0)] 20 1 (initState (0, 0) ((1, 0), (0, 1))) = none := by
  with_unfolding_all decide

/-! ### The outlier mask of `match_lists` in simple mode (prep.py lines 415-432) -/

/-- `sqrt d2 > thr` for a residual norm, phrased on squares
(`sqrt d2 > thr ↔ thr < 0 ∨ thr² < d2`, as `sqrt d2 ≥ 0`). -/
def sqrtGtB (d2 thr : α) : Bool := decide (thr < 0) || decide (thr * thr < d2)

/-- The `outliers` mask returned by `match_lists` with `simple=True`
(prep.py lines 421-430).  `input_ix`/`output_ix` are the pair indices
returned by the external `stsci.stimage.xyxymatch` and `tf` the transform
estimated by `skimage`; with more than 10 matched pairs the residual
`dr = sqrt(((tf(input[input_ix]) - output[output_ix])**2).sum(axis=1))` of
each pair is thresholded against `outlier_threshold`, otherwise
`outliers = np.zeros(len(input_ix), dtype=bool)`. -/
def matchOutlierMask (input output : List (Pt α)) (iix oix : List ℕ)
    (tf : SimTf α) (outlier_threshold : α) : List Bool :=
  if 10 < iix.length then
    List.zipWith (fun i j =>
      sqrtGtB (sqDist (applyTf tf (input.getD i (0, 0))) (output.getD j (0, 0)))
        outlier_threshold) iix oix
  else List.replicate iix.length false

/-- C10: in simple mode, with 10 or fewer matched pairs `match_lists`
returns the all-`False` outlier mask; residual thresholding against
`outlier_threshold` is applied only with more than 10 matched pairs. -/
theorem matchOutlierMask_small (input output : List (Pt α)) (iix oix : List ℕ)
    (tf : SimTf α) (thr : α) :
    (iix.length ≤ 10 →
      matchOutlierMask input output iix oix tf thr = List.replicate iix.length false) ∧
    (10 < iix.length →
      matchOutlierMask input output iix oix tf thr =
        List.zipWith (fun i j =>
          sqrtGtB (sqDist (applyTf tf (input.getD i (0, 0))) (output.getD j (0, 0)))
            thr) iix oix) := by
  constructor
  · intro h
    rw [matchOutlierMask, if_neg (by omega)]
  · intro h
    rw [matchOutlierMask, if_pos h]

/-- C10 witness: one matched pair (well within the `≤ 10` regime) yields the
all-`False` mask, even for a residual far beyond the threshold. -/
theorem matchOutlierMask_small_witness :
    matchOutlierMask [((100 : ℚ), 100)] [((0 : ℚ), 0)] [0] [0] ⟨1, (1, 0), (0, 0)⟩ 5 =
      List.replicate ([0] : List ℕ).length false :=
  (matchOutlierMask_small [((100 : ℚ), 100)] [((0 : ℚ), 0)] [0] [0]
    ⟨1, (1, 0), (0, 0)⟩ 5).1 (by decide)

/-! ### `tweak_flt` (prep.py lines 1342-1417) -/

/-- One shift record of `tweak_flt`.  The successful entry is the Python
list `[dx[0], dx[1], 0.0, 1.0, N, rms]` (prep.py line 1411); the no-match
entry is the 4-element `[0.0, 0.0, 0.0, 1.0]` (line 1401), which carries no
match count — its short form (and the no-match log line) is the flag.
`rmsSq` stores the square of the recorded per-axis
`rms = np.std(dr[ok], axis=0)/np.sqrt(ok.sum())`, i.e. `variance/N`,
keeping the value inside the field `α`. -/
structure TweakRec (α : Type) where
  dx : α
  dy : α
  rot : α
  scale : α
  count : Option ℕ
  rmsSq : Option (Pt α)
deriving DecidableEq

/-- `np.mean`. -/
def meanL (l : List α) : α := l.sum / (l.length : α)

/-- `np.std(l)**2`: the population variance (`ddof = 0`). -/
def varP (l : List α) : α :=
  ((l.map (fun x => (x - meanL l) * (x - meanL l))).sum) / (l.length : α)

/-- The match flags of one exposure against the reference tree
(prep.py lines 1394-1399): `ok = dist < max_dist` for the nearest-neighbor
query of every projected detection. -/
def okFlags (xy0 : List (Pt α)) (maxDist : α) (xy : List (Pt α)) : List Bool :=
  xy.map (fun p => nnWithin p xy0 maxDist)

/-- `dr = xy - xy_0[ix,:]` (prep.py line 1407): the offset of every
projected detection to its nearest reference point (the row is only
consumed for matched detections; an empty reference list, where the query
reports no neighbor, leaves no matched detections at all). -/
def nnOffsets (xy0 : List (Pt α)) (xy : List (Pt α)) : List (Pt α) :=
  xy.map (fun p =>
    match queryNN p xy0 with
    | some (_, i) => (p.1 - (xy0.getD i (0, 0)).1, p.2 - (xy0.getD i (0, 0)).2)
    | none => p)

/-- The record computed for one exposure (prep.py lines 1393-1411): the
no-match record if `ok.sum() == 0`, otherwise the per-axis median
`dx = np.median(dr[ok,:], axis=0)`, rotation `0`, scale `1`, the match
count `ok.sum()`, and the per-axis standard error (stored squared). -/
def tweakRecord (xy0 : List (Pt α)) (maxDist : α) (xy : List (Pt α)) : TweakRec α :=
  let ok := okFlags xy0 maxDist xy
  let n := (ok.filter id).length
  if n = 0 then ⟨0, 0, 0, 1, none, none⟩
  else
    let drok := maskKeep (nnOffsets xy0 xy) ok
    ⟨median (drok.map Prod.fst), median (drok.map Prod.snd), 0, 1, some n,
     some (varP (drok.map Prod.fst) / (n : α), varP (drok.map Prod.snd) / (n : α))⟩

/-- `collections.OrderedDict` insertion `d[k] = v`: overwrite in place, or
append a new key at the end. -/
def odInsert {β : Type} (d : List (ℕ × β)) (k : ℕ) (v : β) : List (ℕ × β) :=
  if d.any (fun kv => kv.1 == k) then
    d.map (fun kv => if kv.1 == k then (k, v) else kv)
  else d ++ [(k, v)]

/-- The shift table of `tweak_flt` (prep.py lines 1387-1414): one pass over
the exposures (identified here by an index standing for the file name),
recording each exposure's entry into an ordered dict keyed by the file.
`xys` holds the exposures' detection lists already projected into the
reference pixel frame (the external `all_pix2world`/`all_world2pix` round
trip of lines 1391-1392); `xy0` is the first exposure's detection list,
over which the single reference tree is built (line 1385). -/
def tweakFlt (files : List ℕ) (xy0 : List (Pt α)) (maxDist : α)
    (xys : List (List (Pt α))) : List (ℕ × TweakRec α) :=
  (files.zip xys).foldl (fun d fx => odInsert d fx.1 (tweakRecord xy0 maxDist fx.2)) []

theorem tweakFlt_foldAux (xy0 : List (Pt α)) (maxDist : α) :
    ∀ (pairs : List (ℕ × List (Pt α))) (d0 : List (ℕ × TweakRec α)),
      (pairs.map Prod.fst).Nodup →
      (∀ kv ∈ d0, ∀ fx ∈ pairs, kv.1 ≠ fx.1) →
      pairs.foldl (fun d fx => odInsert d fx.1 (tweakRecord xy0 maxDist fx.2)) d0 =
        d0 ++ pairs.map (fun fx => (fx.1, tweakRecord xy0 maxDist fx.2)) := by
  intro pairs
  induction pairs with
  | nil =>
    intro d0 _ _
    simp
  | cons fx rest ih =>
    intro d0 hnd hdisj
    rw [List.map_cons] at hnd
    have hnd' := List.nodup_cons.mp hnd
    have hno : d0.any (fun kv => kv.1 == fx.1) = false := by
      rw [List.any_eq_false]
      intro kv hkv
      simp only [beq_iff_eq]
      exact hdisj kv hkv fx (List.mem_cons_self fx rest)
    have hstep : odInsert d0 fx.1 (tweakRecord xy0 maxDist fx.2) =
        d0 ++ [(fx.1, tweakRecord xy0 maxDist fx.2)] := by
      rw [odInsert, if_neg (by simp [hno])]
    rw [List.foldl_cons, hstep,
      ih (d0 ++ [(fx.1, tweakRecord xy0 maxDist fx.2)]) hnd'.2 ?_]
    · simp
    · intro kv hkv fy hfy
      rcases List.mem_append.mp hkv with hkv | hkv
      · exact hdisj kv hkv fy (List.mem_cons_of_mem fx hfy)
      · have : kv = (fx.1, tweakRecord xy0 maxDist fx.2) := by simpa using hkv
        rw [this]
        intro hcontra
        exact hnd'.1 (hcontra.symm ▸ List.mem_map_of_mem Prod.fst hfy)

/-- C7: with distinct file names, the shift table has exactly one record per
exposure, in order, each entry a function of its own exposure's detections
alone (so one failing exposure cannot affect the others); an exposure with
zero matches inside `max_dist` gets the no-match record — zero shift, zero
rotation, unit scale, and no (i.e. flagged, not positive) match count. -/
theorem batch_records (files : List ℕ) (xy0 : List (Pt α)) (maxDist : α)
    (xys : List (List (Pt α))) (hnd : files.Nodup) (hlen : files.length = xys.length) :
    (tweakFlt files xy0 maxDist xys).length = files.length ∧
    tweakFlt files xy0 maxDist xys =
      (files.zip xys).map (fun fx => (fx.1, tweakRecord xy0 maxDist fx.2)) ∧
    ∀ xy, ((okFlags xy0 maxDist xy).filter id).length = 0 →
      tweakRecord xy0 maxDist xy = ⟨0, 0, 0, 1, none, none⟩ := by
  have hmapfst : (files.zip xys).map Prod.fst = files :=
    List.map_fst_zip files xys (le_of_eq hlen)
  have heq : tweakFlt files xy0 maxDist xys =
      (files.zip xys).map (fun fx => (fx.1, tweakRecord xy0 maxDist fx.2)) := by
    rw [tweakFlt]
    have hndz : ((files.zip xys).map Prod.fst).Nodup := by rw [hmapfst]; exact hnd
    rw [tweakFlt_foldAux xy0 maxDist (files.zip xys) [] hndz (by simp)]
    simp
  refine ⟨?_, heq, ?_⟩
  · rw [heq, List.length_map, List.length_zip, hlen, min_self]
  · intro xy h0
    simp only [tweakRecord, if_pos h0]

/-- C7 witness: a three-exposure batch whose middle exposure has no match
within `max_dist` gets the flagged no-match record. -/
theorem batch_records_witness :
    tweakRecord [((0 : ℚ), 0)] 2 [((50 : ℚ), 50)] =
      (⟨0, 0, 0, 1, none, none⟩ : TweakRec ℚ) :=
  (batch_records [0, 1, 2] [((0 : ℚ), 0)] 2 [[(0, 0)], [(50, 50)], [(1, 0)]]
    (by decide) (by decide)).2.2 [((50 : ℚ), 50)] (by with_unfolding_all decide)

/-- The matched offsets of one exposure as the spec describes them: for
every detection whose nearest reference neighbor lies within `max_dist`,
the offset to that neighbor. -/
def pairedOffsets (xy0 : List (Pt α)) (maxDist : α) : List (Pt α) → List (Pt α)
  | [] => []
  | p :: rest =>
    match queryNN p xy0 with
    | some (d2, i) =>
      if distLtB d2 maxDist then
        (p.1 - (xy0.getD i (0, 0)).1, p.2 - (xy0.getD i (0, 0)).2) ::
          pairedOffsets xy0 maxDist rest
      else pairedOffsets xy0 maxDist rest
    | none => pairedOffsets xy0 maxDist rest

theorem maskKeep_cons {β : Type} (a : β) (b : Bool) (l : List β) (bs : List Bool) :
    maskKeep (a :: l) (b :: bs) = if b then a :: maskKeep l bs else maskKeep l bs := by
  cases b <;> simp [maskKeep]

/-- Masking the per-point offsets with the per-point match flags is exactly
the matched-pair offset list. -/
theorem maskKeep_offsets (xy0 : List (Pt α)) (maxDist : α) (xy : List (Pt α)) :
    maskKeep (nnOffsets xy0 xy) (okFlags xy0 maxDist xy) =
      pairedOffsets xy0 maxDist xy := by
  induction xy with
  | nil => rfl
  | cons p rest ih =>
    have e0 : maskKeep (nnOffsets xy0 (p :: rest)) (okFlags xy0 maxDist (p :: rest)) =
        maskKeep ((match queryNN p xy0 with
          | some (d2, i) => (p.1 - (xy0.getD i (0, 0)).1, p.2 - (xy0.getD i (0, 0)).2)
          | none => p) :: nnOffsets xy0 rest)
          (nnWithin p xy0 maxDist :: okFlags xy0 maxDist rest) := rfl
    rw [e0, maskKeep_cons]
    rcases hq : queryNN p xy0 with _ | ⟨d2, i⟩
    · have hw : nnWithin p xy0 maxDist = false := by simp [nnWithin, hq]
      rw [hw]
      simp only [pairedOffsets, hq, Bool.false_eq_true, if_false]
      exact ih
    · have hw : nnWithin p xy0 maxDist = distLtB d2 maxDist := by simp [nnWithin, hq]
      rw [hw]
      simp only [pairedOffsets, hq]
      by_cases hd : distLtB d2 maxDist = true
      · simp only [hd, if_true]
        rw [ih]
      · rw [Bool.not_eq_true] at hd
        simp only [hd, Bool.false_eq_true, if_false]
        exact ih

theorem maskKeep_length {β : Type} :
    ∀ (fl : List Bool) (l : List β), l.length = fl.length →
      (maskKeep l fl).length = (fl.filter id).length := by
  intro fl
  induction fl with
  | nil =>
    intro l h
    have : l = [] := List.length_eq_zero.mp h
    simp [this, maskKeep]
  | cons b bs ih =>
    intro l h
    rcases l with _ | ⟨x, xs⟩
    · simp at h
    · simp only [List.length_cons, Nat.succ.injEq] at h
      cases b
      · simpa [maskKeep, List.filter] using ih xs h
      · simpa [maskKeep, List.filter] using ih xs h

/-- C8: an exposure with at least one match within `max_dist` records the
per-axis median of the matched-pair offsets as its shift, rotation `0`,
scale `1`, the number of matched pairs, and the per-axis standard error of
the offsets — standard deviation over `sqrt N`, recorded squared as
`variance/N`. -/
theorem shift_record (xy0 : List (Pt α)) (maxDist : α) (xy : List (Pt α))
    (h : pairedOffsets xy0 maxDist xy ≠ []) :
    tweakRecord xy0 maxDist xy =
      ⟨median ((pairedOffsets xy0 maxDist xy).map Prod.fst),
       median ((pairedOffsets xy0 maxDist xy).map Prod.snd), 0, 1,
       some (pairedOffsets xy0 maxDist xy).length,
       some (varP ((pairedOffsets xy0 maxDist xy).map Prod.fst) /
               ((pairedOffsets xy0 maxDist xy).length : α),
             varP ((pairedOffsets xy0 maxDist xy).map Prod.snd) /
               ((pairedOffsets xy0 maxDist xy).length : α))⟩ := by
  have hlen : (nnOffsets xy0 xy).length = (okFlags xy0 maxDist xy).length := by
    simp [nnOffsets, okFlags]
  have hmask := maskKeep_offsets xy0 maxDist xy
  have hcount : ((okFlags xy0 maxDist xy).filter id).length =
      (pairedOffsets xy0 maxDist xy).length := by
    rw [← hmask, maskKeep_length (okFlags xy0 maxDist xy) (nnOffsets xy0 xy) hlen]
  have hn0 : ¬ (pairedOffsets xy0 maxDist xy).length = 0 := by
    simpa using h
  simp only [tweakRecord, hmask, hcount, if_neg hn0]

/-- C8 witness: a single detection offset by `(1/2, 0)` from its reference
neighbor, within `max_dist = 1`. -/
theorem shift_record_witness :
    tweakRecord [((0 : ℚ), 0)] 1 [((1 / 2 : ℚ), 0)] =
      ⟨median ((pairedOffsets [((0 : ℚ), 0)] 1 [((1 / 2 : ℚ), 0)]).map Prod.fst),
       median ((pairedOffsets [((0 : ℚ), 0)] 1 [((1 / 2 : ℚ), 0)]).map Prod.snd), 0, 1,
       some (pairedOffsets [((0 : ℚ), 0)] 1 [((1 / 2 : ℚ), 0)]).length,
       some (varP ((pairedOffsets [((0 : ℚ), 0)] 1 [((1 / 2 : ℚ), 0)]).map Prod.fst) /
               ((pairedOffsets [((0 : ℚ), 0)] 1 [((1 / 2 : ℚ), 0)]).length : ℚ),
             varP ((pairedOffsets [((0 : ℚ), 0)] 1 [((1 / 2 : ℚ), 0)]).map Prod.snd) /
               ((pairedOffsets [((0 : ℚ), 0)] 1 [((1 / 2 : ℚ), 0)]).length : ℚ))⟩ :=
  shift_record [((0 : ℚ), 0)] 1 [((1 / 2 : ℚ), 0)] (by with_unfolding_all decide)

end Grizli
